import Mathlib

/-!
Shallow embedding of the photinia repository (`photinia/ops.py` and
`photinia/utils/utils.py`) and proofs about it.

Python values that may appear in a `setup` widget list are modelled by the
inductive type `PyW`.  Callables are modelled by an identifier into an
environment `env : Nat → α → List PyW → α` giving each callable's semantics
on the running value type `α` (calling a callable never fails in the model;
the claims are about the errors `setup` itself produces).  Exceptions are
modelled with `Except PyErr`.
-/

/-- Python exception kinds relevant to this repository. -/
inductive PyErr where
  | valueError (msg : String)
  | typeError (msg : String)
  | indexError (msg : String)
deriving DecidableEq, Repr

/-- Python objects that can appear in a `setup` widget list: a callable
(identified by an id into the environment), a tuple, a list, `None`, or a
non-callable non-sequence leaf object (an int or a string). -/
inductive PyW where
  | func (fid : Nat)
  | tup (ws : List PyW)
  | lst (ws : List PyW)
  | none
  | int (n : Int)
  | str (s : String)

/-- `callable(w)` in Python: in this model exactly the `func` objects. -/
def callable : PyW → Bool
  | .func _ => true
  | _ => false

/-- `isinstance(w, (tuple, list))`. -/
def isSeqW : PyW → Bool
  | .tup _ => true
  | .lst _ => true
  | _ => false

/-- `w is None`. -/
def isNoneW : PyW → Bool
  | .none => true
  | _ => false

/-- Python `str(w)`, used in the `ValueError` message of `setup`.  Only the
leaf objects (the ones that can actually reach the `raise` statement) are
rendered faithfully. -/
def pyStr : PyW → String
  | .func fid => "<callable " ++ toString fid ++ ">"
  | .tup _ => "<tuple>"
  | .lst _ => "<list>"
  | .none => "None"
  | .int n => toString n
  | .str s => s

/-- Calling a python object `f` as `f(y, *args)`.  Only `func` objects are
callable; the environment gives their semantics.  Calling anything else
raises `TypeError` (the python call protocol's error, not `setup`'s own
`ValueError`). -/
def pyCall (env : Nat → α → List PyW → α) (f : PyW) (y : α) (args : List PyW) :
    Except PyErr α :=
  match f with
  | .func fid => .ok (env fid y args)
  | w => .error (.typeError (pyStr w ++ " object is not callable"))

/-- One iteration of the loop body of `setup` (ops.py lines 106-121), on the
running value `y` and the widget `w`.  The source's ordered
`if callable(w) / elif isinstance(w, (tuple, list)) / elif w is None / else raise`
dispatch is over disjoint shapes, so it is written as a single match:
a callable gives `y = w(y)`; a non-empty tuple/list gives `y = fn(y, *args)`
with `fn = w[0]`, `args = w[1:]`; an empty tuple/list and `None` `continue`;
anything else raises `ValueError('%s is not callable.' % str(w))`. -/
def setupStep (env : Nat → α → List PyW → α) (y : α) : PyW → Except PyErr α
  | .func fid => pyCall env (.func fid) y []
  | .tup [] => .ok y
  | .lst [] => .ok y
  | .tup (fn :: args) => pyCall env fn y args
  | .lst (fn :: args) => pyCall env fn y args
  | .none => .ok y
  | w => .error (.valueError (pyStr w ++ " is not callable."))

/-- The `for w in widget_list` loop of `setup`, threading the running value
and stopping at the first raised exception. -/
def setupFold (env : Nat → α → List PyW → α) : α → List PyW → Except PyErr α
  | y, [] => .ok y
  | y, w :: ws =>
    match setupStep env y w with
    | .ok y2 => setupFold env y2 ws
    | .error e => .error e

/-- `setup(x, widget_list)` from ops.py lines 95-122.  A `widget_list` that
is not a python list or tuple is wrapped into a one-element list
(line 103-104); a list or tuple is iterated as the widget sequence. -/
def setup (env : Nat → α → List PyW → α) (x : α) (widget_list : PyW) :
    Except PyErr α :=
  match widget_list with
  | .tup ws => setupFold env x ws
  | .lst ws => setupFold env x ws
  | w => setupFold env x [w]

/-- The fold step described by claim C1: a callable `w` replaces the running
value `y` by `w(y)`; a non-empty tuple/list `(fn, a1, ..., ak)` replaces `y`
by `fn(y, a1, ..., ak)`; `None` and empty tuples leave `y` unchanged. -/
def specApply (env : Nat → α → List PyW → α) (y : α) : PyW → α
  | .func fid => env fid y []
  | .tup (.func fid :: args) => env fid y args
  | .lst (.func fid :: args) => env fid y args
  | _ => y

/-- Entries of the shape described by claim C1: a callable, a non-empty
tuple/list whose head is a callable, an empty tuple/list, or `None`. -/
def GoodWb : PyW → Bool
  | .func _ => true
  | .none => true
  | .tup [] => true
  | .lst [] => true
  | .tup (.func _ :: _) => true
  | .lst (.func _ :: _) => true
  | _ => false

/-- Entries of the shapes accepted by `setup`'s dispatch: callable,
tuple/list, or `None` (the shapes that do not reach the `raise`). -/
def AccWb : PyW → Bool
  | .func _ => true
  | .tup _ => true
  | .lst _ => true
  | .none => true
  | _ => false

/-- Does an `Except` result hold a `ValueError`? -/
def isVE : Except PyErr α → Bool
  | .error (.valueError _) => true
  | _ => false

theorem setupStep_good (env : Nat → α → List PyW → α) (y : α) (w : PyW)
    (hw : GoodWb w = true) : setupStep env y w = .ok (specApply env y w) := by
  cases w with
  | func fid => rfl
  | none => rfl
  | tup ws =>
    cases ws with
    | nil => rfl
    | cons fn args => cases fn <;> simp_all [GoodWb, setupStep, pyCall, specApply]
  | lst ws =>
    cases ws with
    | nil => rfl
    | cons fn args => cases fn <;> simp_all [GoodWb, setupStep, pyCall, specApply]
  | int n => simp [GoodWb] at hw
  | str s => simp [GoodWb] at hw

theorem setupFold_good (env : Nat → α → List PyW → α) (x : α) (ws : List PyW)
    (hw : ∀ w ∈ ws, GoodWb w = true) :
    setupFold env x ws = .ok (ws.foldl (specApply env) x) := by
  induction ws generalizing x with
  | nil => rfl
  | cons w ws ih =>
    have h1 : GoodWb w = true := hw w (List.mem_cons_self w ws)
    have h2 : ∀ w2 ∈ ws, GoodWb w2 = true := fun w2 hm => hw w2 (List.mem_cons_of_mem w hm)
    simp [setupFold, setupStep_good env x w h1, ih _ h2, List.foldl_cons]

theorem setup_good (env : Nat → α → List PyW → α) (x : α) (ws : List PyW)
    (hw : ∀ w ∈ ws, GoodWb w = true) :
    setup env x (.lst ws) = .ok (ws.foldl (specApply env) x) :=
  setupFold_good env x ws hw

/-- C1: for every initial value `x` and widget list whose entries are each a
callable, a non-empty tuple/list `(fn, a1, ..., ak)` (with `fn` callable), an
empty tuple, or `None`, `setup(x, widget_list)` folds left to right: a
callable `w` replaces the running value `y` by `w(y)`, a non-empty tuple
replaces `y` by `fn(y, a1, ..., ak)`, `None` and empty tuples leave `y`
unchanged, and the final `y` is returned.  In particular
`setup(x, [f, (g, 2), None]) == g(f(x), 2)`, and a single widget that is not
a list or tuple is treated as the one-element sequence `[widget]`. -/
theorem setup_folds_left_over_widget_list {α : Type} :
    (∀ (env : Nat → α → List PyW → α) (x : α) (ws : List PyW),
      (∀ w ∈ ws, GoodWb w = true) →
      setup env x (.lst ws) = .ok (ws.foldl (specApply env) x))
    ∧ (∀ (env : Nat → α → List PyW → α) (x : α) (f g : Nat),
      setup env x (.lst [.func f, .tup [.func g, .int 2], .none]) =
        .ok (env g (env f x []) [.int 2]))
    ∧ (∀ (env : Nat → α → List PyW → α) (x : α) (w : PyW),
      isSeqW w = false → setup env x w = setup env x (.lst [w])) := by
  refine ⟨fun env x ws hw => setup_good env x ws hw, fun env x f g => rfl, ?_⟩
  intro env x w hw
  cases w <;> simp_all [isSeqW, setup]

/-- A concrete environment for witnesses: callable `fid` maps `y` and `args`
to `fid + y + args.length`. -/
def envW : Nat → Int → List PyW → Int :=
  fun fid y args => (fid : Int) + y + args.length

theorem setup_folds_left_over_widget_list_witness :
    setup envW 0 (.lst [.func 1, .tup [.func 2, .int 2], .none]) = .ok 4 :=
  (setup_folds_left_over_widget_list.1 envW 0
    [.func 1, .tup [.func 2, .int 2], .none] (by decide)).trans (by rfl)

theorem setupStep_bad (env : Nat → α → List PyW → α) (y : α) (w : PyW)
    (hw : AccWb w = false) :
    setupStep env y w = .error (.valueError (pyStr w ++ " is not callable.")) := by
  cases w <;> simp_all [AccWb, setupStep]

theorem setupFold_append (env : Nat → α → List PyW → α) (x : α)
    (pre rest : List PyW) :
    setupFold env x (pre ++ rest) =
      match setupFold env x pre with
      | .ok y => setupFold env y rest
      | .error e => .error e := by
  induction pre generalizing x with
  | nil => simp [setupFold]
  | cons w pre ih =>
    simp only [List.cons_append, setupFold]
    cases setupStep env x w with
    | ok y2 => exact ih y2
    | error e => rfl

theorem setupFold_ve_mp (env : Nat → α → List PyW → α) (x : α) (ws : List PyW)
    (h : isVE (setupFold env x ws) = true) :
    ∃ pre w post y, ws = pre ++ w :: post ∧
      setupFold env x pre = .ok y ∧ AccWb w = false := by
  induction ws generalizing x with
  | nil => simp [setupFold, isVE] at h
  | cons w ws ih =>
    rw [setupFold] at h
    cases hstep : setupStep env x w with
    | ok y2 =>
      rw [hstep] at h
      obtain ⟨pre, wb, post, y, hdec, hpre, hbad⟩ := ih y2 h
      refine ⟨w :: pre, wb, post, y, by simp [hdec], ?_, hbad⟩
      simp [setupFold, hstep, hpre]
    | error e =>
      rw [hstep] at h
      cases hacc : AccWb w with
      | false => exact ⟨[], w, ws, x, rfl, rfl, hacc⟩
      | true =>
        exfalso
        cases w with
        | func fid => simp [setupStep, pyCall] at hstep
        | none => simp [setupStep] at hstep
        | int n => simp [AccWb] at hacc
        | str s => simp [AccWb] at hacc
        | tup ws2 =>
          cases ws2 with
          | nil => simp [setupStep] at hstep
          | cons fn args =>
            cases fn <;> simp [setupStep, pyCall] at hstep <;>
              (subst hstep; simp [isVE] at h)
        | lst ws2 =>
          cases ws2 with
          | nil => simp [setupStep] at hstep
          | cons fn args =>
            cases fn <;> simp [setupStep, pyCall] at hstep <;>
              (subst hstep; simp [isVE] at h)

theorem setupFold_ve_iff (env : Nat → α → List PyW → α) (x : α) (ws : List PyW) :
    isVE (setupFold env x ws) = true ↔
      ∃ pre w post y, ws = pre ++ w :: post ∧
        setupFold env x pre = .ok y ∧ AccWb w = false := by
  refine ⟨setupFold_ve_mp env x ws, ?_⟩
  rintro ⟨pre, wb, post, y, hdec, hpre, hbad⟩
  subst hdec
  rw [setupFold_append, hpre]
  simp [setupFold, setupStep_bad env y wb hbad, isVE]

/-- C8: `setup(x, widget_list)` raises a `ValueError` if and only if some
entry reached during the fold (all entries before it processed without
error) is neither callable, nor a tuple/list, nor `None`; the error is
raised at the first such entry, and for a widget list whose entries are all
of the accepted shapes `setup` itself raises no `ValueError`. -/
theorem setup_value_error_iff_bad_entry {α : Type} :
    (∀ (env : Nat → α → List PyW → α) (x : α) (ws : List PyW),
      isVE (setup env x (.lst ws)) = true ↔
        ∃ pre w post y, ws = pre ++ w :: post ∧
          setupFold env x pre = .ok y ∧ AccWb w = false)
    ∧ (∀ (env : Nat → α → List PyW → α) (x : α) (ws : List PyW),
      (∀ w ∈ ws, AccWb w = true) → isVE (setup env x (.lst ws)) = false) := by
  refine ⟨fun env x ws => setupFold_ve_iff env x ws, fun env x ws hacc => ?_⟩
  cases hve : isVE (setup env x (.lst ws)) with
  | false => rfl
  | true =>
    obtain ⟨pre, w, post, y, hdec, -, hbad⟩ := (setupFold_ve_iff env x ws).1 hve
    have : AccWb w = true := hacc w (by simp [hdec])
    simp [this] at hbad

theorem setup_value_error_iff_bad_entry_witness :
    isVE (setup envW 0 (.lst [.int 5])) = true :=
  (setup_value_error_iff_bad_entry.1 envW 0 [.int 5]).2
    ⟨[], .int 5, [], 0, rfl, rfl, rfl⟩

/-- C9: a tuple passed as the `widget_list` argument is interpreted as the
widget sequence itself (its elements iterated as individual widgets), never
as a single `(callable, args)` widget: `setup(x, (f, g)) == g(f(x))`, and
`setup(x, (f, 2))` applies `f` to `x` and then raises `ValueError` on the
non-callable `2` rather than computing `f(x, 2)`. -/
theorem setup_tuple_widget_list_iterated {α : Type} :
    (∀ (env : Nat → α → List PyW → α) (x : α) (ws : List PyW),
      setup env x (.tup ws) = setupFold env x ws ∧
      setup env x (.tup ws) = setup env x (.lst ws))
    ∧ (∀ (env : Nat → α → List PyW → α) (x : α) (f g : Nat),
      setup env x (.tup [.func f, .func g]) = .ok (env g (env f x []) []))
    ∧ (∀ (env : Nat → α → List PyW → α) (x : α) (f : Nat),
      setup env x (.tup [.func f, .int 2]) =
        .error (.valueError "2 is not callable.")) :=
  ⟨fun env x ws => ⟨rfl, rfl⟩, fun env x f g => rfl, fun env x f => rfl⟩

/-!
`kl_normal` (ops.py lines 56-76).  Tensors `mu0`, `var0` are 2-D and are
modelled as rational matrices (`List (List ℚ)`); the elementwise `tf.log` is
modelled by an arbitrary scalar function `log : ℚ → ℚ` supplied as a
parameter (the claims either hold for every `log` or take the standard
bounds on the real logarithm as hypotheses).  `mu1` and `var1` are
host-level python scalars, which is what the `if mu1 == 0.0 and var1 == 1.0`
dispatch compares.
-/

/-- A 2-D tensor of rationals. -/
def Mat : Type := List (List ℚ)

/-- Elementwise map over a 2-D tensor (scalar broadcasting). -/
def matMap (f : ℚ → ℚ) (m : Mat) : Mat := m.map (fun row => row.map f)

/-- Elementwise combination of two 2-D tensors of the same shape. -/
def matZip (f : ℚ → ℚ → ℚ) (a b : Mat) : Mat :=
  List.zipWith (fun ra rb => List.zipWith f ra rb) a b

/-- `tf.reduce_sum(kl, 1)`: sum along axis 1, one scalar per row. -/
def tf_reduce_sum_axis1 (m : Mat) : List ℚ := m.map (fun row => row.sum)

/-- The special branch body (ops.py line 71):
`kl = var0 + mu0 ** 2 - 1 - tf.log(var0)` (with `var0` already
epsilon-shifted by the caller). -/
def klSpecial (log : ℚ → ℚ) (mu0 var0 : Mat) : Mat :=
  matZip (· - ·)
    (matMap (· - 1) (matZip (· + ·) var0 (matMap (fun v => v ^ 2) mu0)))
    (matMap log var0)

/-- The general branch body (ops.py line 74):
`kl = var0 / var1 + (mu0 - mu1) ** 2 / var1 - 1 - tf.log(var0 / var1)`,
for scalar `mu1`, `var1`; the caller supplies `var0` already
epsilon-shifted and (in the code path) `var1` epsilon-shifted. -/
def klGeneralNoEps (log : ℚ → ℚ) (mu0 var0 : Mat) (mu1 var1 : ℚ) : Mat :=
  matZip (· - ·)
    (matMap (· - 1)
      (matZip (· + ·)
        (matMap (· / var1) var0)
        (matMap (· / var1) (matMap (fun v => v ^ 2) (matMap (· - mu1) mu0)))))
    (matMap log (matMap (· / var1) var0))

/-- `kl_normal(mu0, var0, mu1, var1)` from ops.py lines 56-76:
`e = 1e-4; var0 += e`; if the host-level scalar test `mu1 == 0.0 and
var1 == 1.0` holds, take the special branch, else `var1 += e` and take the
general branch; finally `kl = 0.5 * tf.reduce_sum(kl, 1)`. -/
def kl_normal (log : ℚ → ℚ) (mu0 var0 : Mat) (mu1 : ℚ := 0) (var1 : ℚ := 1) :
    List ℚ :=
  let e : ℚ := 1 / 10000
  let var0e := matMap (· + e) var0
  let kl :=
    if mu1 = 0 ∧ var1 = 1 then klSpecial log mu0 var0e
    else klGeneralNoEps log mu0 var0e mu1 (var1 + e)
  (tf_reduce_sum_axis1 kl).map (fun s => (1 / 2) * s)

/-- The closed formula of claim C4 for the standard-normal target:
`0.5 * Σ_axis1 ((var0 + 1e-4) + mu0 ^ 2 - 1 - log (var0 + 1e-4))`. -/
def klStdFormula (log : ℚ → ℚ) (mu0 var0 : Mat) : List ℚ :=
  (matZip (fun v m => v + 1 / 10000 + m ^ 2 - 1 - log (v + 1 / 10000)) var0 mu0).map
    (fun row => (1 / 2) * row.sum)

theorem rowSpecial_fuse (log g : ℚ → ℚ) (r m : List ℚ) :
    List.zipWith (· - ·)
      (List.map (· - 1)
        (List.zipWith (· + ·) (r.map g) (m.map (fun v => v ^ 2))))
      (List.map log (r.map g)) =
    List.zipWith (fun v x => g v + x ^ 2 - 1 - log (g v)) r m := by
  induction r generalizing m with
  | nil => rfl
  | cons a r ih =>
    cases m with
    | nil => rfl
    | cons b m =>
      simp only [List.map_cons, List.zipWith_cons_cons]
      rw [ih]

theorem klSpecial_fuse (log g : ℚ → ℚ) (mu0 var0 : Mat) :
    klSpecial log mu0 (matMap g var0) =
      matZip (fun v x => g v + x ^ 2 - 1 - log (g v)) var0 mu0 := by
  induction var0 generalizing mu0 with
  | nil => rfl
  | cons r rs ih =>
    cases mu0 with
    | nil => rfl
    | cons m ms =>
      simp only [matMap, matZip, List.map_cons, List.zipWith_cons_cons,
        klSpecial] at *
      exact List.cons_eq_cons.2 ⟨rowSpecial_fuse log g r m, ih ms⟩

/-- C4: for every 2-D `mu0` and `var0`, `kl_normal(mu0, var0)` with the
default target `(mu1 = 0, var1 = 1)` returns
`0.5 * Σ_axis1 ((var0 + 1e-4) + mu0 ^ 2 - 1 - log (var0 + 1e-4))`, the
epsilon `1e-4` being added to the variance before the logarithm; and with
the standard bounds `0 ≤ log (1 + 1e-4) ≤ 1e-4` on the logarithm,
`kl_normal(0, 1)` is `0` within the epsilon tolerance `1e-4`. -/
theorem kl_normal_default_formula :
    (∀ (log : ℚ → ℚ) (mu0 var0 : Mat),
      kl_normal log mu0 var0 0 1 = klStdFormula log mu0 var0)
    ∧ (∀ log : ℚ → ℚ, 0 ≤ log (1 + 1 / 10000) → log (1 + 1 / 10000) ≤ 1 / 10000 →
      ∀ y ∈ kl_normal log [[0]] [[1]] 0 1, |y| ≤ 1 / 10000) := by
  constructor
  · intro log mu0 var0
    simp only [kl_normal, klStdFormula, if_pos (And.intro rfl rfl),
      klSpecial_fuse log (· + 1 / 10000) mu0 var0, tf_reduce_sum_axis1,
      List.map_map]
    rfl
  · intro log h0 h1 y hy
    have : kl_normal log [[0]] [[1]] 0 1 =
        [(1 / 2) * (1 + 1 / 10000 + 0 ^ 2 - 1 - log (1 + 1 / 10000))] := by
      simp [kl_normal, klSpecial, matMap, matZip, tf_reduce_sum_axis1]
    rw [this, List.mem_singleton] at hy
    subst hy
    rw [abs_le]
    constructor <;> nlinarith

theorem kl_normal_default_formula_witness :
    |(1 : ℚ) / 20000| ≤ (1 : ℚ) / 10000 :=
  kl_normal_default_formula.2 (fun _ => 0) (by norm_num) (by norm_num)
    (1 / 20000)
    (by
      rw [show kl_normal (fun _ => 0) [[0]] [[1]] 0 1 = [(1 : ℚ) / 20000] by
        simp [kl_normal, klSpecial, matMap, matZip, tf_reduce_sum_axis1]
        norm_num]
      exact List.mem_singleton.2 rfl)

theorem rowGeneral_one_zero (log : ℚ → ℚ) (r m : List ℚ) :
    List.zipWith (· - ·)
      (List.map (· - 1)
        (List.zipWith (· + ·) (r.map (· / 1))
          (List.map (· / 1) (List.map (fun v => v ^ 2) (m.map (· - 0))))))
      (List.map log (r.map (· / 1))) =
    List.zipWith (· - ·)
      (List.map (· - 1) (List.zipWith (· + ·) r (m.map (fun v => v ^ 2))))
      (List.map log r) := by
  simp [div_one, sub_zero, Function.comp_def]

/-- C5: the special-case branch of `kl_normal` (taken when the host-level
scalar test `mu1 == 0.0 and var1 == 1.0` holds) produces exactly the result
of the general branch evaluated at `mu1 = 0`, `var1 = 1`, modulo the timing
of the epsilon addition (the general code path would use `var1 + 1e-4`; the
comparison below uses `var1 = 1` exactly).  The branch dispatch is the
scalar equality `mu1 = 0 ∧ var1 = 1` on the host scalars, not an
elementwise tensor comparison, so `kl_normal log mu0 var0 0 1` itself equals
the epsilon-free general form. -/
theorem kl_normal_special_branch_refines_general :
    (∀ (log : ℚ → ℚ) (mu0 var0 : Mat),
      klGeneralNoEps log mu0 var0 0 1 = klSpecial log mu0 var0)
    ∧ (∀ (log : ℚ → ℚ) (mu0 var0 : Mat),
      kl_normal log mu0 var0 0 1 =
        (tf_reduce_sum_axis1
          (klGeneralNoEps log mu0 (matMap (· + 1 / 10000) var0) 0 1)).map
          (fun s => (1 / 2) * s)) := by
  have key : ∀ (log : ℚ → ℚ) (mu0 var0 : Mat),
      klGeneralNoEps log mu0 var0 0 1 = klSpecial log mu0 var0 := by
    intro log mu0 var0
    unfold klGeneralNoEps klSpecial
    induction var0 generalizing mu0 with
    | nil => rfl
    | cons r rs ih =>
      cases mu0 with
      | nil => rfl
      | cons m ms =>
        simp only [matMap, matZip, List.map_cons, List.zipWith_cons_cons] at *
        exact List.cons_eq_cons.2 ⟨rowGeneral_one_zero log r m, ih ms⟩
  refine ⟨key, fun log mu0 var0 => ?_⟩
  rw [key log mu0 (matMap (· + 1 / 10000) var0)]
  simp [kl_normal]

/-!
`clip_gradient` (ops.py lines 79-92).  A gradient tensor is modelled by its
flat list of rational entries.  The square root used by the framework's
norms is supplied as a parameter `sqrt : ℚ → ℚ` (the claims either hold for
every `sqrt` or take `sqrt 0 = 0` as a hypothesis).  `tf.global_norm` and
`tf.clip_by_global_norm` are modelled from their documented semantics:
`global_norm = sqrt (Σ Σ v²)` and every tensor is scaled by
`clip_norm / max (global_norm, clip_norm)`.
-/

/-- Sum of squared entries of one gradient tensor. -/
def sumSq (t : List ℚ) : ℚ := (t.map (fun v => v ^ 2)).sum

/-- `tf.global_norm(t_list)`. -/
def tf_global_norm (sqrt : ℚ → ℚ) (ts : List (List ℚ)) : ℚ :=
  sqrt ((ts.map sumSq).sum)

/-- `tf.clip_by_global_norm(t_list, clip_norm)`: returns the jointly
rescaled tensors and the pre-clip global norm. -/
def tf_clip_by_global_norm (sqrt : ℚ → ℚ) (ts : List (List ℚ)) (clip_norm : ℚ) :
    List (List ℚ) × ℚ :=
  let gn := tf_global_norm sqrt ts
  let scale := clip_norm / max gn clip_norm
  (ts.map (fun t => t.map (fun v => v * scale)), gn)

/-- `clip_gradient(pair_list, max_norm)` from ops.py lines 79-92: split off
the gradients, clip them by global norm, recompute the global norm of the
clipped gradients, and zip the clipped gradients back with the original
variables. -/
def clip_gradient {V : Type} (sqrt : ℚ → ℚ) (pair_list : List (List ℚ × V))
    (max_norm : ℚ) : List (List ℚ × V) × ℚ × ℚ :=
  let grad_list := pair_list.map Prod.fst
  let clipped := tf_clip_by_global_norm sqrt grad_list max_norm
  let grad_list2 := clipped.1
  let raw_grad := clipped.2
  let grad := tf_global_norm sqrt grad_list2
  let pairs := (grad_list2.zip pair_list).map (fun gp => (gp.1, gp.2.2))
  (pairs, raw_grad, grad)

/-- C3: `clip_gradient([], max_norm)` succeeds for every `max_norm`: the
empty pair list is accepted and the call returns an empty pair list, a
pre-clip global norm of zero and a post-clip global norm of zero (the
model's `clip_gradient` is total, so nothing is raised). -/
theorem clip_gradient_empty_ok {V : Type} :
    ∀ (sqrt : ℚ → ℚ) (max_norm : ℚ), sqrt 0 = 0 →
      clip_gradient sqrt ([] : List (List ℚ × V)) max_norm = ([], 0, 0) := by
  intro sqrt max_norm h
  simp [clip_gradient, tf_clip_by_global_norm, tf_global_norm, h]

theorem clip_gradient_empty_ok_witness :
    clip_gradient id ([] : List (List ℚ × Unit)) 5 = ([], 0, 0) :=
  clip_gradient_empty_ok id 5 rfl

/-- The joint rescale factor applied to every gradient by
`clip_gradient sqrt pair_list max_norm`. -/
def clipScale {V : Type} (sqrt : ℚ → ℚ) (pair_list : List (List ℚ × V))
    (max_norm : ℚ) : ℚ :=
  max_norm / max (tf_global_norm sqrt (pair_list.map Prod.fst)) max_norm

/-- C7: the pair list returned by `clip_gradient(pair_list, max_norm)` has
the same length and order as the input, the second component (the variable)
of each returned pair is exactly the second component of the corresponding
input pair, and each returned gradient is the corresponding input gradient
rescaled by the joint factor — only the gradients change. -/
theorem clip_gradient_preserves_vars {V : Type} :
    ∀ (sqrt : ℚ → ℚ) (pair_list : List (List ℚ × V)) (max_norm : ℚ),
      (clip_gradient sqrt pair_list max_norm).1.length = pair_list.length
      ∧ ∀ i (h : i < (clip_gradient sqrt pair_list max_norm).1.length)
          (h2 : i < pair_list.length),
          ((clip_gradient sqrt pair_list max_norm).1.get ⟨i, h⟩).2 =
            (pair_list.get ⟨i, h2⟩).2
          ∧ ((clip_gradient sqrt pair_list max_norm).1.get ⟨i, h⟩).1 =
            (pair_list.get ⟨i, h2⟩).1.map
              (fun v => v * clipScale sqrt pair_list max_norm) := by
  intro sqrt pair_list max_norm
  have hlen : (clip_gradient sqrt pair_list max_norm).1.length = pair_list.length := by
    simp [clip_gradient, tf_clip_by_global_norm]
  refine ⟨hlen, fun i h h2 => ?_⟩
  simp only [clip_gradient, tf_clip_by_global_norm, List.get_eq_getElem,
    List.getElem_map, List.getElem_zip, clipScale]
  constructor
  · trivial
  · simp [List.getElem_map]

theorem clip_gradient_preserves_vars_witness :
    ((clip_gradient id [([(3 : ℚ)], "a")] 10).1.get
      ⟨0, by simp [clip_gradient, tf_clip_by_global_norm]⟩).2 = "a" :=
  ((clip_gradient_preserves_vars id [([(3 : ℚ)], "a")] 10).2 0
    (by simp [clip_gradient, tf_clip_by_global_norm]) (by simp)).1

/-!
`one_hot` (utils/utils.py lines 15-33).  The numpy array is modelled as a
list (1-D) or list of lists (2-D) of `Nat` entries; `np.zeros` gives zero
entries and the writes store `1`.  A numpy integer-index write accepts any
index in `[-n, n)`, negative indices counting from the end, and raises
`IndexError` otherwise.  An `index` argument that is neither an int nor a
list/tuple of ints is modelled by `NpIndex.other`.
-/

/-- The shapes the `index` argument of `one_hot` can take. -/
inductive NpIndex where
  | int (i : Int)
  | lst (idxs : List Int)
  | tup (idxs : List Int)
  | other (descr : String)

/-- A numpy array as returned by `one_hot`: a 1-D vector or a 2-D matrix. -/
inductive NpArr where
  | vec (v : List Nat)
  | mat (m : List (List Nat))
deriving DecidableEq, Repr

/-- `v[i] = x` for a 1-D numpy array `v` and a python int `i`: indices in
`[-len(v), len(v))` are accepted, negative ones counting from the end;
anything else raises `IndexError`. -/
def npSet1 (v : List Nat) (i : Int) (x : Nat) : Except PyErr (List Nat) :=
  if -(v.length : Int) ≤ i ∧ i < (v.length : Int) then
    .ok (v.set (if i < 0 then ((v.length : Int) + i).toNat else i.toNat) x)
  else
    .error (.indexError ("index " ++ toString i ++ " is out of bounds"))

/-- `ret[range(seq_len), index] = x`: row `j` receives `x` at (possibly
negative) column `index[j]`.  The rows and the index list have equal length
at the call site. -/
def npSetRows (x : Nat) : List (List Nat) → List Int → Except PyErr (List (List Nat))
  | rows, [] => .ok rows
  | [], _ :: _ => .error (.indexError "index array is longer than the axis")
  | r :: rs, i :: idxs => do
    let r2 ← npSet1 r i x
    let rest ← npSetRows x rs idxs
    return r2 :: rest

/-- `one_hot(index, dims)` from utils/utils.py lines 15-33: an int index
writes a `1` into a zero vector of length `dims`; a list/tuple of ints
writes one `1` per row of a zero `(len(index), dims)` matrix; any other
index type raises `ValueError`. -/
def one_hot (index : NpIndex) (dims : Nat) : Except PyErr NpArr :=
  match index with
  | .int i => (npSet1 (List.replicate dims 0) i 1).map NpArr.vec
  | .lst idxs =>
    (npSetRows 1 (List.replicate idxs.length (List.replicate dims 0)) idxs).map NpArr.mat
  | .tup idxs =>
    (npSetRows 1 (List.replicate idxs.length (List.replicate dims 0)) idxs).map NpArr.mat
  | .other _ => .error (.valueError "index should be int or list(tuple) of int.")

theorem isVE_map (f : α → β) (r : Except PyErr α) : isVE (r.map f) = isVE r := by
  cases r with
  | error e => cases e <;> rfl
  | ok a => rfl

theorem npSet1_no_ve (v : List Nat) (i : Int) (x : Nat) :
    isVE (npSet1 v i x) = false := by
  rw [npSet1]
  split <;> rfl

theorem npSetRows_no_ve (x : Nat) (rows : List (List Nat)) (idxs : List Int) :
    isVE (npSetRows x rows idxs) = false := by
  induction rows generalizing idxs with
  | nil => cases idxs <;> rfl
  | cons r rs ih =>
    cases idxs with
    | nil => rfl
    | cons i idxs =>
      rcases h1 : npSet1 r i x with e | r2
      · have hv := npSet1_no_ve r i x
        rw [h1] at hv
        rw [npSetRows, h1]
        cases e
        · simp [isVE] at hv
        · rfl
        · rfl
      · rw [npSetRows, h1]
        rcases h2 : npSetRows x rs idxs with e2 | rest
        · have hv := ih idxs
          rw [h2] at hv
          cases e2
          · simp [isVE] at hv
          · rfl
          · rfl
        · simp [bind, Except.bind, h2, pure, Except.pure, isVE]

/-- C10: for every int index with `-dims ≤ index < 0` and `dims > 0`,
`one_hot(index, dims)` does not raise: it returns a length-`dims` vector
whose single `1` sits at position `dims + index` (python negative
indexing); an int index outside `[-dims, dims)` raises an index error from
the array write; and the documented invalid-argument `ValueError` is raised
exactly for the non-int, non-list/tuple index types. -/
theorem one_hot_negative_index :
    (∀ (i : Int) (dims : Nat), 0 < dims → -(dims : Int) ≤ i → i < 0 →
      ∃ v, one_hot (.int i) dims = .ok (.vec v) ∧ v.length = dims ∧
        ∀ j (h : j < v.length),
          v.get ⟨j, h⟩ = if (j : Int) = (dims : Int) + i then 1 else 0)
    ∧ (∀ (i : Int) (dims : Nat), (i < -(dims : Int) ∨ (dims : Int) ≤ i) →
      ∃ msg, one_hot (.int i) dims = .error (.indexError msg))
    ∧ (∀ (index : NpIndex) (dims : Nat),
      isVE (one_hot index dims) = true ↔ ∃ s, index = .other s) := by
  refine ⟨?_, ?_, ?_⟩
  · intro i dims hd hlo hhi
    refine ⟨(List.replicate dims 0).set ((dims : Int) + i).toNat 1, ?_, ?_, ?_⟩
    · rw [one_hot, npSet1]
      rw [if_pos ⟨by simpa using hlo, by omega⟩, if_pos hhi]
      simp [Except.map]
    · simp
    · intro j hj
      simp only [List.length_set, List.length_replicate] at hj
      simp only [List.get_eq_getElem, List.getElem_set, List.getElem_replicate]
      have htn : (((dims : Int) + i).toNat : Int) = (dims : Int) + i := by omega
      by_cases hcase : (j : Int) = (dims : Int) + i
      · rw [if_pos (by omega), if_pos hcase]
      · rw [if_neg (by omega), if_neg hcase]
  · intro i dims hout
    refine ⟨"index " ++ toString i ++ " is out of bounds", ?_⟩
    rw [one_hot, npSet1, if_neg (by simp only [List.length_replicate]; omega)]
    rfl
  · intro index dims
    constructor
    · intro hve
      cases index with
      | int i =>
        rw [one_hot, isVE_map, npSet1_no_ve] at hve
        cases hve
      | lst idxs =>
        rw [one_hot, isVE_map, npSetRows_no_ve] at hve
        cases hve
      | tup idxs =>
        rw [one_hot, isVE_map, npSetRows_no_ve] at hve
        cases hve
      | other s => exact ⟨s, rfl⟩
    · rintro ⟨s, rfl⟩
      rfl

theorem one_hot_negative_index_witness :
    ∃ v, one_hot (.int (-1)) 3 = .ok (.vec v) ∧ v.length = 3 ∧
      ∀ j (h : j < v.length),
        v.get ⟨j, h⟩ = if (j : Int) = (3 : Int) + (-1) then 1 else 0 :=
  one_hot_negative_index.1 (-1) 3 (by norm_num) (by norm_num) (by norm_num)

/-!
Tensors and `transpose_sequence` (ops.py lines 125-136).  A tensor is a
shape together with a data function on multi-indices; tensor values are
compared extensionally (`Tensor.eqv`): same shape and same entry at every
index of the tensor's rank, which is the framework's elementwise equality.
`tf.transpose(x, perm)` is modelled from its documented semantics: output
axis `k` is input axis `perm[k]`, so the output entry at `idx` is the input
entry whose coordinate at axis `p` is `idx[perm⁻¹ p]`.
-/

/-- An N-dimensional tensor: a shape and the entry at each multi-index. -/
structure Tensor (V : Type) where
  shape : List Nat
  data : List Nat → V

/-- Elementwise tensor equality: same shape and same entries at every
index of the tensor's rank. -/
def Tensor.eqv {V : Type} (t u : Tensor V) : Prop :=
  t.shape = u.shape ∧
    ∀ idx : List Nat, idx.length = t.shape.length → t.data idx = u.data idx

/-- `tf.transpose(t, perm)`: output axis `k` is input axis `perm[k]`. -/
def tf_transpose {V : Type} (t : Tensor V) (perm : List Nat) : Tensor V where
  shape := perm.map (fun p => t.shape.getD p 0)
  data := fun idx =>
    t.data ((List.range t.shape.length).map (fun p => idx.getD (List.indexOf p perm) 0))

/-- `transpose_sequence(seq, seq_axis)` from ops.py lines 125-136:
`perm = list(range(len(seq.shape)))`, then the simultaneous assignment
`perm[0], perm[seq_axis] = seq_axis, 0` (write index 0 first, then index
`seq_axis`), then `tf.transpose(seq, perm)`. -/
def transpose_sequence {V : Type} (seq : Tensor V) (seq_axis : Nat := 1) : Tensor V :=
  let perm := ((List.range seq.shape.length).set 0 seq_axis).set seq_axis 0
  tf_transpose seq perm

/-- The permutation list built by `transpose_sequence`. -/
def swpPerm (n a : Nat) : List Nat := ((List.range n).set 0 a).set a 0

/-- The function the list `swpPerm n a` tabulates on `[0, n)`. -/
def swp (a i : Nat) : Nat := if a = i then 0 else if 0 = i then a else i

theorem swp_invol (a i : Nat) : swp a (swp a i) = i := by
  unfold swp
  split_ifs <;> omega

theorem swp_lt (a n i : Nat) (ha : a < n) (hi : i < n) : swp a i < n := by
  unfold swp
  split_ifs <;> omega

theorem swpPerm_length (n a : Nat) : (swpPerm n a).length = n := by
  simp [swpPerm]

theorem swpPerm_getElem (n a i : Nat) (h : i < (swpPerm n a).length) :
    (swpPerm n a).get ⟨i, h⟩ = swp a i := by
  have hi : i < n := by simpa [swpPerm_length] using h
  simp [swpPerm, swp, List.getElem_set, List.getElem_range, hi]

theorem swpPerm_nodup (n a : Nat) : (swpPerm n a).Nodup := by
  rw [List.nodup_iff_injective_get]
  rintro ⟨i, hi⟩ ⟨j, hj⟩ hij
  rw [swpPerm_getElem n a i hi, swpPerm_getElem n a j hj] at hij
  have h2 : swp a (swp a i) = swp a (swp a j) := by rw [hij]
  rw [swp_invol, swp_invol] at h2
  exact Fin.ext h2

theorem swpPerm_indexOf (n a p : Nat) (ha : a < n) (hp : p < n) :
    List.indexOf p (swpPerm n a) = swp a p := by
  have h1 : swp a p < (swpPerm n a).length := by
    rw [swpPerm_length]
    exact swp_lt a n p ha hp
  have h2 := List.indexOf_getElem (swpPerm_nodup n a) (swp a p) h1
  have h3 : (swpPerm n a)[swp a p] = p := by
    have := swpPerm_getElem n a (swp a p) h1
    simpa [swp_invol] using this
  rw [h3] at h2
  exact h2

theorem transpose_sequence_def {V : Type} (t : Tensor V) (a : Nat) :
    transpose_sequence t a = tf_transpose t (swpPerm t.shape.length a) := rfl

theorem tf_transpose_shape_length {V : Type} (t : Tensor V) (n a : Nat) :
    (tf_transpose t (swpPerm n a)).shape.length = n := by
  simp [tf_transpose, swpPerm_length]

/-- C6: for every tensor `seq` and every valid axis `a < rank(seq)`,
`transpose_sequence(transpose_sequence(seq, a), a)` is elementwise equal to
`seq`: the permutation swaps axis 0 with axis `a` and leaves all other axes
in place, so applying it twice with the same axis is the identity. -/
theorem transpose_sequence_involutive {V : Type} :
    ∀ (seq : Tensor V) (a : Nat), a < seq.shape.length →
      Tensor.eqv (transpose_sequence (transpose_sequence seq a) a) seq := by
  intro seq a ha
  rw [transpose_sequence_def, transpose_sequence_def,
    tf_transpose_shape_length seq seq.shape.length a]
  constructor
  · -- shapes
    apply List.ext_getElem
    · simp [tf_transpose, swpPerm_length]
    · intro k h1 h2
      simp only [tf_transpose, List.getElem_map]
      have hkP : k < (swpPerm seq.shape.length a).length := by
        rw [swpPerm_length]
        exact h2
      have e1 : (swpPerm seq.shape.length a)[k] = swp a k := swpPerm_getElem _ _ _ hkP
      rw [e1]
      have hsw : swp a k < seq.shape.length := swp_lt a _ k ha h2
      have hswP : swp a k < ((swpPerm seq.shape.length a).map
          (fun p => seq.shape.getD p 0)).length := by
        simpa [swpPerm_length] using hsw
      rw [List.getD_eq_getElem _ 0 hswP, List.getElem_map]
      have hswP2 : swp a k < (swpPerm seq.shape.length a).length := by
        rw [swpPerm_length]
        exact hsw
      have e2 : (swpPerm seq.shape.length a)[swp a k] = swp a (swp a k) :=
        swpPerm_getElem _ _ _ hswP2
      rw [e2, swp_invol]
      exact List.getD_eq_getElem _ 0 h2
  · -- data
    intro idx hlen
    have hlen2 : idx.length = seq.shape.length := by
      simpa [tf_transpose, swpPerm_length] using hlen
    simp only [tf_transpose, List.length_map, swpPerm_length]
    congr 1
    apply List.ext_getElem
    · simp [hlen2]
    · intro k h1 h2
      have hk : k < seq.shape.length := by simpa using h1
      simp only [List.getElem_map, List.getElem_range]
      rw [swpPerm_indexOf _ _ _ ha hk]
      have hsw : swp a k < seq.shape.length := swp_lt a _ k ha hk
      have hswR : swp a k < ((List.range seq.shape.length).map
          (fun p => idx.getD (List.indexOf p (swpPerm seq.shape.length a)) 0)).length := by
        simpa using hsw
      rw [List.getD_eq_getElem _ 0 hswR, List.getElem_map, List.getElem_range]
      rw [swpPerm_indexOf _ _ _ ha hsw, swp_invol]
      exact List.getD_eq_getElem _ 0 (by rw [hlen2]; exact hk)

/-- A concrete tensor for the C6 witness. -/
def tensorW : Tensor Nat := ⟨[2, 3], fun idx => idx.sum⟩

theorem transpose_sequence_involutive_witness :
    Tensor.eqv (transpose_sequence (transpose_sequence tensorW 1) 1) tensorW :=
  transpose_sequence_involutive tensorW 1 (by simp [tensorW])

/-!
`setup_sequence` (ops.py lines 139-178).  The sequence tensor's leading-axis
slices drive `tf.map_fn` / `tf.scan`, both modelled from their documented
semantics: `tf.scan(fn, elems, initializer)` is the strict left-to-right
scan whose i-th output is the i-th state, the states stacked along a new
leading axis; `tf.map_fn` maps over the slices and stacks the results.
The python exception raised while tracing the per-step function (for
instance by `setup`) propagates out of the call.
-/

/-- A recurrent cell: its `state_size` and its transition function
`cell.setup(x, state)`. -/
structure Cell (V : Type) where
  state_size : Nat
  setup : Tensor V → Tensor V → Tensor V

/-- `tf.zeros(shape)`. -/
def tf_zeros {V : Type} [Zero V] (shape : List Nat) : Tensor V := ⟨shape, fun _ => 0⟩

/-- Slice `t[i, ...]` of a tensor along the leading axis. -/
def Tensor.slice {V : Type} (t : Tensor V) (i : Nat) : Tensor V :=
  ⟨t.shape.tail, fun idx => t.data (i :: idx)⟩

/-- The list of leading-axis slices of a tensor. -/
def leadingSlices {V : Type} (t : Tensor V) : List (Tensor V) :=
  (List.range (t.shape.headD 0)).map t.slice

/-- Stack a list of tensors along a new leading axis. -/
def stack {V : Type} [Zero V] (ts : List (Tensor V)) : Tensor V :=
  ⟨ts.length :: (ts.headD (tf_zeros [])).shape,
    fun idx => (ts.getD (idx.headD 0) (tf_zeros [])).data idx.tail⟩

/-- The successive states of a left-to-right scan whose step may raise;
the first raised exception propagates. -/
def scanM {σ τ : Type} (f : σ → τ → Except PyErr σ) : σ → List τ → Except PyErr (List σ)
  | _, [] => .ok []
  | s, x :: xs =>
    match f s x with
    | .ok s2 => (scanM f s2 xs).map (fun rest => s2 :: rest)
    | .error e => .error e

/-- `tf.scan(fn, elems, initializer)`: scan `fn` over the leading-axis
slices of `elems` starting from `init`, stacking the successive states. -/
def tf_scan {V : Type} [Zero V] (f : Tensor V → Tensor V → Except PyErr (Tensor V))
    (elems : Tensor V) (init : Tensor V) : Except PyErr (Tensor V) :=
  (scanM f init (leadingSlices elems)).map stack

/-- `tf.map_fn(fn, elems)`: apply `fn` to each leading-axis slice of
`elems` and stack the results. -/
def tf_map_fn {V : Type} [Zero V] (f : Tensor V → Except PyErr (Tensor V))
    (elems : Tensor V) : Except PyErr (Tensor V) :=
  ((leadingSlices elems).mapM f).map stack

/-- `setup_sequence(seq, widget_list, transpose_in, transpose_out, cell,
init_state)` from ops.py lines 139-178: optionally transpose the input;
without a cell, map `setup` over the leading-axis slices; with a cell,
default the initial state to `tf.zeros((tf.shape(seq)[1], cell.state_size))`
when it is not supplied and scan
`lambda acc, elem: cell.setup(setup(elem, widget_list), acc)` over the
slices; optionally transpose the output. -/
def setup_sequence {V : Type} [Zero V] (env : Nat → Tensor V → List PyW → Tensor V)
    (seq : Tensor V) (widget_list : PyW)
    (transpose_in : Bool := false) (transpose_out : Bool := false)
    (cell : Option (Cell V) := Option.none)
    (init_state : Option (Tensor V) := Option.none) : Except PyErr (Tensor V) :=
  let seq2 := if transpose_in then transpose_sequence seq 1 else seq
  let y : Except PyErr (Tensor V) :=
    match cell with
    | Option.none => tf_map_fn (fun elem => setup env elem widget_list) seq2
    | Option.some c =>
      let init :=
        match init_state with
        | Option.some s => s
        | Option.none => tf_zeros [seq2.shape.getD 1 0, c.state_size]
      tf_scan (fun acc elem => (setup env elem widget_list).map (fun z => c.setup z acc))
        seq2 init
  y.map (fun t => if transpose_out then transpose_sequence t 1 else t)

/-- The states of the strict left-to-right scan described by claim C2:
`state_{-1} = s0`, `state_i = step state_{i-1} x_i`, one state per input
element. -/
def scanStates {σ τ : Type} (step : σ → τ → σ) : σ → List τ → List σ
  | _, [] => []
  | s, x :: xs =>
    let s2 := step s x
    s2 :: scanStates step s2 xs

/-- The state sequence claim C2 describes for `setup_sequence` with a cell:
`state_i = cell.setup(setup(seq_i, widget_list), state_{i-1})` over the
leading-axis slices of `seq`. -/
def specCellStates {V : Type} (env : Nat → Tensor V → List PyW → Tensor V)
    (ws : List PyW) (c : Cell V) (s0 : Tensor V) (seq : Tensor V) : List (Tensor V) :=
  scanStates (fun s x => c.setup (List.foldl (specApply env) x ws) s) s0 (leadingSlices seq)

theorem scanM_congr_ok {σ τ : Type} (f : σ → τ → Except PyErr σ) (st : σ → τ → σ)
    (hf : ∀ s x, f s x = .ok (st s x)) :
    ∀ (s0 : σ) (xs : List τ), scanM f s0 xs = .ok (scanStates st s0 xs) := by
  intro s0 xs
  induction xs generalizing s0 with
  | nil => rfl
  | cons x xs ih =>
    rw [scanM, hf s0 x]
    show (scanM f (st s0 x) xs).map (fun rest => st s0 x :: rest) =
      .ok (scanStates st s0 (x :: xs))
    rw [ih (st s0 x)]
    rfl

theorem scanStates_length {σ τ : Type} (step : σ → τ → σ) (s0 : σ) (xs : List τ) :
    (scanStates step s0 xs).length = xs.length := by
  induction xs generalizing s0 with
  | nil => rfl
  | cons x xs ih => simp [scanStates, ih]

theorem scanStates_shape {V : Type} (step : Tensor V → Tensor V → Tensor V)
    (hstep : ∀ s x, (step s x).shape = s.shape) (s0 : Tensor V) (xs : List (Tensor V)) :
    ∀ t ∈ scanStates step s0 xs, t.shape = s0.shape := by
  induction xs generalizing s0 with
  | nil => intro t ht; simp [scanStates] at ht
  | cons x xs ih =>
    intro t ht
    simp only [scanStates, List.mem_cons] at ht
    rcases ht with rfl | ht
    · exact hstep s0 x
    · rw [ih (step s0 x) t ht, hstep s0 x]

theorem stack_slice {V : Type} [Zero V] (ts : List (Tensor V)) (sh : List Nat)
    (hsh : ∀ t ∈ ts, t.shape = sh) (i : Nat) (h : i < ts.length) :
    (stack ts).slice i = ts.get ⟨i, h⟩ := by
  have hget : ts.getD i (tf_zeros []) = ts.get ⟨i, h⟩ := List.getD_eq_getElem ts _ h
  have hhead : (ts.headD (tf_zeros [])).shape = (ts.get ⟨i, h⟩).shape := by
    cases ts with
    | nil => simp at h
    | cons t0 rest =>
      have h0 : t0.shape = sh := hsh t0 (List.mem_cons_self t0 rest)
      have hmem : (t0 :: rest).get ⟨i, h⟩ ∈ t0 :: rest := List.get_mem _ _ h
      rw [List.headD_cons, h0, hsh _ hmem]
  show Tensor.mk ((ts.headD (tf_zeros [])).shape)
      (fun idx => (ts.getD i (tf_zeros [])).data idx) =
    Tensor.mk (ts.get ⟨i, h⟩).shape (ts.get ⟨i, h⟩).data
  rw [hget, hhead]

theorem scanStates_get_congr {σ τ : Type} (step : σ → τ → σ) :
    ∀ (i : Nat) (s0 : σ) (xs ys : List τ)
      (h1 : i < (scanStates step s0 xs).length)
      (h2 : i < (scanStates step s0 ys).length),
      (∀ j (hjx : j < xs.length) (hjy : j < ys.length), j ≤ i →
        xs.get ⟨j, hjx⟩ = ys.get ⟨j, hjy⟩) →
      (scanStates step s0 xs).get ⟨i, h1⟩ = (scanStates step s0 ys).get ⟨i, h2⟩ := by
  intro i
  induction i with
  | zero =>
    intro s0 xs ys h1 h2 hag
    cases xs with
    | nil => simp [scanStates] at h1
    | cons x xs2 =>
      cases ys with
      | nil => simp [scanStates] at h2
      | cons y ys2 =>
        have hxy : x = y := hag 0 (by simp) (by simp) le_rfl
        simp [scanStates, hxy]
  | succ i ih =>
    intro s0 xs ys h1 h2 hag
    cases xs with
    | nil => simp [scanStates] at h1
    | cons x xs2 =>
      cases ys with
      | nil => simp [scanStates] at h2
      | cons y ys2 =>
        have hxy : x = y := hag 0 (by simp) (by simp) (Nat.zero_le _)
        subst hxy
        have h1b : i < (scanStates step (step s0 x) xs2).length := by
          rw [scanStates_length]
          rw [scanStates_length] at h1
          simpa using h1
        have h2b : i < (scanStates step (step s0 x) ys2).length := by
          rw [scanStates_length]
          rw [scanStates_length] at h2
          simpa using h2
        have hag2 : ∀ j (hjx : j < xs2.length) (hjy : j < ys2.length), j ≤ i →
            xs2.get ⟨j, hjx⟩ = ys2.get ⟨j, hjy⟩ := by
          intro j hjx hjy hj
          have := hag (j + 1) (by simpa using hjx) (by simpa using hjy)
            (Nat.succ_le_succ hj)
          simpa using this
        have := ih (step s0 x) xs2 ys2 h1b h2b hag2
        simpa [scanStates] using this

/-- C2: with a recurrent cell, `setup_sequence(seq, widget_list, cell=c,
init_state=s0)` is the strict left-to-right scan with `state_{-1} = s0` and
`state_i = c.setup(setup(seq_i, widget_list), state_{i-1})` over the
leading-axis slices: the result is the stack of the states, with exactly
one output per input step; output `i` is state `i`; output `i` depends only
on `s0` and the slices `0..i` (no future leakage); and when `init_state` is
not supplied the initial state is a zero tensor of shape
`(batch_size, c.state_size)` with `batch_size` read from axis 1 of `seq`. -/
theorem setup_sequence_cell_is_strict_scan {V : Type} [Zero V] :
    ∀ (env : Nat → Tensor V → List PyW → Tensor V) (ws : List PyW) (c : Cell V)
      (s0 seq : Tensor V),
      (∀ w ∈ ws, GoodWb w = true) →
      (∀ x s, (c.setup x s).shape = s.shape) →
      (setup_sequence env seq (.lst ws) false false (some c) (some s0) =
        .ok (stack (specCellStates env ws c s0 seq)))
      ∧ (specCellStates env ws c s0 seq).length = seq.shape.headD 0
      ∧ (∀ i (h : i < (specCellStates env ws c s0 seq).length),
          (stack (specCellStates env ws c s0 seq)).slice i =
            (specCellStates env ws c s0 seq).get ⟨i, h⟩)
      ∧ (∀ (seqB : Tensor V) i (h : i < (specCellStates env ws c s0 seq).length)
          (hB : i < (specCellStates env ws c s0 seqB).length),
          (∀ j, j ≤ i → seq.slice j = seqB.slice j) →
          (specCellStates env ws c s0 seq).get ⟨i, h⟩ =
            (specCellStates env ws c s0 seqB).get ⟨i, hB⟩)
      ∧ setup_sequence env seq (.lst ws) false false (some c) Option.none =
          setup_sequence env seq (.lst ws) false false (some c)
            (some (tf_zeros [seq.shape.getD 1 0, c.state_size])) := by
  intro env ws c s0 seq hw hs
  have hf : ∀ (s x : Tensor V),
      (setup env x (.lst ws)).map (fun z => c.setup z s) =
        .ok (c.setup (List.foldl (specApply env) x ws) s) := by
    intro s x
    rw [setup_good env x ws hw]
    rfl
  refine ⟨?_, ?_, ?_, ?_, ?_⟩
  · show (tf_scan (fun acc elem =>
        (setup env elem (.lst ws)).map (fun z => c.setup z acc)) seq s0).map
        (fun t => if false then transpose_sequence t 1 else t) =
      .ok (stack (specCellStates env ws c s0 seq))
    rw [tf_scan, scanM_congr_ok _ _ (fun s x => hf s x) s0 (leadingSlices seq)]
    rfl
  · rw [specCellStates, scanStates_length, leadingSlices, List.length_map,
      List.length_range]
  · intro i h
    exact stack_slice _ s0.shape
      (scanStates_shape _ (fun s x => hs _ s) s0 (leadingSlices seq)) i h
  · intro seqB i h hB hag
    apply scanStates_get_congr
    intro j hjx hjy hj
    simp only [leadingSlices, List.get_eq_getElem, List.getElem_map,
      List.getElem_range]
    exact hag j hj
  · rfl

/-- A concrete environment, cell, initial state and sequence tensor for the
C2 witness. -/
def envT : Nat → Tensor Int → List PyW → Tensor Int := fun _ t _ => t

def cellW : Cell Int := ⟨2, fun _ s => s⟩

def s0W : Tensor Int := tf_zeros [1, 2]

def seqW : Tensor Int := ⟨[3, 1, 2], fun idx => (idx.sum : Int)⟩

theorem setup_sequence_cell_is_strict_scan_witness :
    setup_sequence envT seqW (.lst [PyW.none]) false false (some cellW) (some s0W) =
      .ok (stack (specCellStates envT [PyW.none] cellW s0W seqW)) :=
  (setup_sequence_cell_is_strict_scan envT [PyW.none] cellW s0W seqW
    (by decide) (fun x s => rfl)).1
